import Mathlib

/-!
# Verification of the race-car deep-learning engine (`rc_nn_tools.py`)

Shallow embedding of the class `NNTools` from `rc_nn_tools.py`.

Modelling conventions:
* Python floats carrying losses, labels and accuracies are modelled as `ℚ`
  (the quantities manipulated here are exact ratios of the inputs).
* The trainable model (`ServoNet`/`MotorNet` weights together with the Adam
  optimizer state) is an opaque type `Model`; its forward pass is an opaque
  function `fwd : Model → Img → ℚ` and the combined
  `backward + optimizer.step()` effect of one batch is an opaque
  `stepUpd : Model → Batch Img → Model`.  The MSE loss itself
  (`nn.MSELoss()`, mean reduction) is computed explicitly from `fwd`.
* `DataLoader(..., batch_size=bs)` over a list of examples yields the
  consecutive chunks of size `bs` (last chunk short); shuffling in `train`
  is modelled by quantifying over an arbitrary per-epoch batch list.
* Device placement (`.cuda()`) moves values without changing them, so the
  `self.cuda` branches of `set_io` collapse to the identity.
* Fallible Python code (a `ZeroDivisionError`, an exception inside the
  batch loop) is modelled with `Option`/`Except`.
* Wall-clock times (`timeit.default_timer()`) are not modelled; the printed
  progress lines keep their remaining fields.
-/

set_option maxRecDepth 10000

/-- The target-signal selector `self.type` (`types[0]`), `"servo"` or
`"motor"` (line 61 of `rc_nn_tools.py`). -/
inductive SigType where
  | servo
  | motor
  deriving DecidableEq

/-- One dataset example as produced by `Datagen`: an image together with the
servo and motor label scalars. -/
structure Ex (Img : Type) where
  img : Img
  servo : ℚ
  motor : ℚ
  deriving DecidableEq

/-- A mini-batch as yielded by the `DataLoader`: `for image, servo, motor in
dataloader`. -/
abbrev Batch (Img : Type) := List (Ex Img)

/-- `set_io` (lines 273-302): selects the configured signal as the target.
The `self.cuda` branch only moves tensors to the device and is value-wise
the identity. -/
def targetOf {Img : Type} (ty : SigType) (ex : Ex Img) : ℚ :=
  match ty with
  | .servo => ex.servo
  | .motor => ex.motor

/-- `torch.Tensor.round()`: round to the nearest integer, halves to the
nearest even integer (banker's rounding). -/
def roundEven (q : ℚ) : ℤ :=
  if q - ⌊q⌋ < 1/2 then ⌊q⌋
  else if 1/2 < q - ⌊q⌋ then ⌊q⌋ + 1
  else if ⌊q⌋ % 2 = 0 then ⌊q⌋ else ⌊q⌋ + 1

/-- The chunks of size `bs` of a list, last chunk short: the batches a
(non-shuffling) `DataLoader` with `batch_size=bs` yields, `bs ≥ 1`. -/
def chunks {α : Type} (bs : Nat) : List α → List (List α)
  | [] => []
  | a :: l => (a :: List.take (bs - 1) l) :: chunks bs (List.drop (bs - 1) l)
  termination_by l => l.length
  decreasing_by simp; omega

/-- The per-example acceptance test of `test` (line 258-259):
`abs(target - model(input).round()) <= 1`. -/
def isCorrect {Model Img : Type} (fwd : Model → Img → ℚ) (ty : SigType)
    (m : Model) (ex : Ex Img) : Bool :=
  decide (|targetOf ty ex - ((roundEven (fwd m ex.img) : ℤ) : ℚ)| ≤ 1)

/-- Per-batch correct count, `sum(accuracy).item()` of line 261. -/
def batchCorrect {Model Img : Type} (fwd : Model → Img → ℚ) (ty : SigType)
    (m : Model) (b : Batch Img) : Nat :=
  b.countP (isCorrect fwd ty m)

/-- The batch loop of `test` (lines 250-261), threading the pair
`(total_accuracy, self.model)`.  The loop body only reads the model; it
never assigns to it. -/
def testLoop {Model Img : Type} (fwd : Model → Img → ℚ) (ty : SigType) :
    ℚ × Model → List (Batch Img) → ℚ × Model
  | p, [] => p
  | p, b :: bl =>
      testLoop fwd ty (p.1 + (batchCorrect fwd ty p.2 b : ℚ), p.2) bl

/-- `NNTools.test` (lines 219-270), returning the accuracy percentage
together with the model field it leaves behind.  The final
`total_accuracy*100/len(testset)` raises `ZeroDivisionError` on an empty
manifest, modelled as `none`. -/
def testM {Model Img : Type} (fwd : Model → Img → ℚ) (ty : SigType)
    (m : Model) (bs : Nat) (ts : List (Ex Img)) : Option (ℚ × Model) :=
  let r := testLoop fwd ty (0, m) (chunks bs ts)
  if ts.length = 0 then none
  else some (r.1 * 100 / (ts.length : ℚ), r.2)

/-- The value of `NNTools.test` on a non-empty manifest (the success path of
`testM`, used from `train` at line 199 where the dev manifest is assumed
non-empty). -/
def testAcc {Model Img : Type} (fwd : Model → Img → ℚ) (ty : SigType)
    (m : Model) (bs : Nat) (ts : List (Ex Img)) : ℚ :=
  (testLoop fwd ty (0, m) (chunks bs ts)).1 * 100 / (ts.length : ℚ)

example : roundEven (7/2) = 4 := by norm_num [roundEven]
example : roundEven (5/2) = 2 := by norm_num [roundEven]
example : roundEven (-1/2) = 0 := by norm_num [roundEven]
example : chunks 2 [1, 2, 3, 4, 5] = [[1, 2], [3, 4], [5]] := by simp [chunks]

/-- `nn.MSELoss()` (mean reduction) of one batch on the current weights:
`criterion(target.unsqueeze(1), output)` of line 181, with
`output = model(input)`. -/
def mseLoss {Model Img : Type} (fwd : Model → Img → ℚ) (ty : SigType)
    (m : Model) (b : Batch Img) : ℚ :=
  ((b.map fun ex => (targetOf ty ex - fwd m ex.img) ^ 2).sum) / (b.length : ℚ)

/-- One progress line printed by `train` at line 190:
`'[%3d, %5d] loss: %2.7f time: %2.3f dev: %2.0f' % (epoch, batch,
running_loss/100, stop-start, accuracy)` (the wall-time field is not
modelled). -/
structure Progress where
  epoch : Nat
  count : Nat
  loss : ℚ
  dev : ℚ
  deriving DecidableEq

/-- The mutable state of the batch loop of one epoch of `train`
(lines 162-196): `self.model`, the counter `batch`, `running_loss`,
`epoch_loss`, and the progress lines printed so far. -/
structure BState (Model : Type) where
  model : Model
  batch : Nat
  running : ℚ
  epochLoss : ℚ
  prog : List Progress

/-- The body of the batch loop of `train` (lines 169-196): advance the
counter by `self.batch_size`, compute the MSE loss on the current weights,
apply one optimizer step, accumulate the running loss, and when the counter
is an exact multiple of 100 print a progress line showing
`running_loss/100`, store it in `epoch_loss` and reset the accumulator. -/
def batchStep {Model Img : Type} (fwd : Model → Img → ℚ)
    (stepUpd : Model → Batch Img → Model) (ty : SigType) (bs epoch : Nat)
    (acc : ℚ) (s : BState Model) (b : Batch Img) : BState Model :=
  let cnt := s.batch + bs
  let loss := mseLoss fwd ty s.model b
  let m := stepUpd s.model b
  let run := s.running + loss
  if cnt % 100 = 0 then
    { model := m, batch := cnt, running := 0, epochLoss := run / 100,
      prog := s.prog ++ [⟨epoch, cnt, run / 100, acc⟩] }
  else
    { model := m, batch := cnt, running := run, epochLoss := s.epochLoss,
      prog := s.prog }

/-- One epoch's batch loop (lines 164-196): `batch` and `running_loss` are
reset to zero at the start of every epoch (lines 165-166), then the loop
folds over the epoch's batches. -/
def runEpoch {Model Img : Type} (fwd : Model → Img → ℚ)
    (stepUpd : Model → Batch Img → Model) (ty : SigType) (bs epoch : Nat)
    (acc : ℚ) (s0 : BState Model) (bl : List (Batch Img)) : BState Model :=
  bl.foldl (batchStep fwd stepUpd ty bs epoch acc)
    { s0 with batch := 0, running := 0 }

/-- The sequence of per-batch losses along a batch list, each computed on
the weights the optimizer has produced so far. -/
def lossSeq {Model Img : Type} (fwd : Model → Img → ℚ)
    (stepUpd : Model → Batch Img → Model) (ty : SigType) (m : Model) :
    List (Batch Img) → List ℚ
  | [] => []
  | b :: bl => mseLoss fwd ty m b :: lossSeq fwd stepUpd ty (stepUpd m b) bl

/-- The weights after applying the optimizer step over a batch list. -/
def stepModel {Model Img : Type} (stepUpd : Model → Batch Img → Model)
    (m : Model) (bl : List (Batch Img)) : Model :=
  bl.foldl stepUpd m

/-- Specification-level description of the progress lines of an epoch whose
batches are grouped into full 100-example windows: one line per window, at
cumulative counts 100, 200, …, each showing the window's accumulated loss
divided by 100. -/
def windowLines {Model Img : Type} (fwd : Model → Img → ℚ)
    (stepUpd : Model → Batch Img → Model) (ty : SigType) (epoch : Nat)
    (acc : ℚ) : Model → Nat → List (List (Batch Img)) → List Progress
  | _, _, [] => []
  | m, cnt, w :: ws =>
      ⟨epoch, cnt + 100, (lossSeq fwd stepUpd ty m w).sum / 100, acc⟩ ::
        windowLines fwd stepUpd ty epoch acc (stepModel stepUpd m w)
          (cnt + 100) ws

/-- `np.argmax` on a list of rationals: the 0-based index of the first
occurrence of the maximum (line 353 / 357). -/
def argmaxIdx : List ℚ → Nat
  | [] => 0
  | x :: xs => if ∀ y ∈ xs, y ≤ x then 0 else argmaxIdx xs + 1

/-- One line of the log file `output/result.csv`, as written by
`plot_result` (lines 349-361): the epoch index, `dev_accuracy[epoch-1]`,
and the 1-based best epoch `np.argmax(dev_accuracy)+1`, inside a message
keyed by the signal name.  The string continuation in the source keeps the
whole content on a single line ending in one `\n`. -/
structure LogLine where
  sig : SigType
  epoch : Nat
  acc : ℚ
  best : Nat
  deriving DecidableEq

/-- The log line `plot_result` appends for a given epoch and accuracy
history (lines 349-361). -/
def mkLogLine (ty : SigType) (epoch : Nat) (devAcc : List ℚ) : LogLine :=
  ⟨ty, epoch, devAcc.getD (epoch - 1) 0, argmaxIdx devAcc + 1⟩

/-- `set_output` (lines 95-123): whatever the log file held before, the
session starts from a freshly truncated, empty log
(`os.remove` + `open(log, 'a').close()`). -/
def set_output (_oldLog : List LogLine) : List LogLine := []

/-- The checkpoint path written at epoch `e`:
`os.path.join(ODIR, 'models/servo_model_epoch_%d.pth' % epoch)`
(lines 38, 204-205).  The signal name in the path is hardcoded to
`"servo"` in the source, whatever `self.type` is. -/
def checkpointName (epoch : Nat) : String :=
  "output/" ++ "models/servo_model_epoch_" ++ toString epoch ++ ".pth"

/-- The console message of `save_model` (lines 406-411), which does branch
on `self.type`. -/
def saveModelMsg : SigType → String
  | .servo => "Saving servo Model "
  | .motor => "Saving motor Model "

/-- The observable state of a training session: the in-memory weights and
the holders of lines 156-159, plus the checkpoint files written, the log
file contents, and the printed progress lines. -/
structure TrainWorld (Model : Type) where
  model : Model
  epochLoss : ℚ
  accuracy : ℚ
  totalLoss : List ℚ
  devAccuracy : List ℚ
  checkpoints : List String
  log : List LogLine
  prog : List Progress

/-- One iteration of the epoch loop of `train` (lines 162-208): run the
batch loop, evaluate on the dev manifest (`accuracy = self.test(devset)`),
append the accuracy and `epoch_loss` records, save the epoch checkpoint,
and let `plot_result` append the log line. -/
def trainEpoch {Model Img : Type} (fwd : Model → Img → ℚ)
    (stepUpd : Model → Batch Img → Model) (ty : SigType) (bs : Nat)
    (devset : List (Ex Img)) (e : Nat) (w : TrainWorld Model)
    (bl : List (Batch Img)) : TrainWorld Model :=
  let s := runEpoch fwd stepUpd ty bs e w.accuracy
    ⟨w.model, 0, 0, w.epochLoss, w.prog⟩ bl
  let acc := testAcc fwd ty s.model bs devset
  let devAccuracy := w.devAccuracy ++ [acc]
  { model := s.model, epochLoss := s.epochLoss, accuracy := acc,
    totalLoss := w.totalLoss ++ [s.epochLoss],
    devAccuracy := devAccuracy,
    checkpoints := w.checkpoints ++ [checkpointName e],
    log := w.log ++ [mkLogLine ty e devAccuracy],
    prog := s.prog }

/-- `NNTools.train` (lines 126-216) on the success path: the epoch loop
`for epoch in range(1, self.epochs+1)`.  The shuffled batches of epoch `e`
are `ebs e` (the `DataLoader` reshuffles every epoch). -/
def trainRun {Model Img : Type} (fwd : Model → Img → ℚ)
    (stepUpd : Model → Batch Img → Model) (ty : SigType) (bs : Nat)
    (devset : List (Ex Img)) (E : Nat) (ebs : Nat → List (Batch Img))
    (w0 : TrainWorld Model) : TrainWorld Model :=
  (List.range' 1 E).foldl
    (fun w e => trainEpoch fwd stepUpd ty bs devset e w (ebs e)) w0

/-- The training world right after the constructor and the initialisation
of lines 156-159: fresh holders, and the log file truncated by
`set_output`. -/
def initWorld {Model : Type} (m : Model) (oldLog : List LogLine) :
    TrainWorld Model :=
  { model := m, epochLoss := 0, accuracy := 0, totalLoss := [],
    devAccuracy := [], checkpoints := [], log := set_output oldLog,
    prog := [] }

/-- The body of the batch loop with a fallible batch (data loading, forward,
backward or `optimizer.step()` may raise).  `stepE` abstracts the whole
parameter update of one batch: on failure the exception propagates with the
weights as the completed batches left them (in-place updates by the Adam
optimizer on `self.model` persist across the raised exception). -/
def batchStepE {Model Img Err : Type} (fwd : Model → Img → ℚ)
    (stepE : Model → Batch Img → Except Err Model) (ty : SigType)
    (bs epoch : Nat) (acc : ℚ) (s : BState Model) (b : Batch Img) :
    Except (Err × BState Model) (BState Model) :=
  let cnt := s.batch + bs
  let loss := mseLoss fwd ty s.model b
  match stepE s.model b with
  | .error err => .error (err, s)
  | .ok m =>
    let run := s.running + loss
    if cnt % 100 = 0 then
      .ok { model := m, batch := cnt, running := 0, epochLoss := run / 100,
            prog := s.prog ++ [⟨epoch, cnt, run / 100, acc⟩] }
    else
      .ok { model := m, batch := cnt, running := run,
            epochLoss := s.epochLoss, prog := s.prog }

/-- One epoch's batch loop with fallible batches: the first failing batch
aborts the loop, carrying out the state reached so far. -/
def runEpochE {Model Img Err : Type} (fwd : Model → Img → ℚ)
    (stepE : Model → Batch Img → Except Err Model) (ty : SigType)
    (bs epoch : Nat) (acc : ℚ) (s0 : BState Model)
    (bl : List (Batch Img)) : Except (Err × BState Model) (BState Model) :=
  bl.foldl (fun r b => r.bind fun s => batchStepE fwd stepE ty bs epoch acc s b)
    (Except.ok { s0 with batch := 0, running := 0 })

/-- One iteration of the epoch loop with fallible batches.  When the batch
loop of the epoch fails, the whole `train` call aborts: the in-memory
weights (and the already-printed progress lines) reflect the completed
batches, while the records, checkpoint files and log lines stay those of
the previously completed epochs — the per-epoch persistence of
lines 198-208 runs only after the batch loop finishes. -/
def trainEpochE {Model Img Err : Type} (fwd : Model → Img → ℚ)
    (stepE : Model → Batch Img → Except Err Model) (ty : SigType) (bs : Nat)
    (devset : List (Ex Img)) (e : Nat) (w : TrainWorld Model)
    (bl : List (Batch Img)) :
    Except (Err × TrainWorld Model) (TrainWorld Model) :=
  match runEpochE fwd stepE ty bs e w.accuracy
      ⟨w.model, 0, 0, w.epochLoss, w.prog⟩ bl with
  | .error (err, s) => .error (err, { w with model := s.model, prog := s.prog })
  | .ok s =>
    let acc := testAcc fwd ty s.model bs devset
    let devAccuracy := w.devAccuracy ++ [acc]
    .ok { model := s.model, epochLoss := s.epochLoss, accuracy := acc,
          totalLoss := w.totalLoss ++ [s.epochLoss],
          devAccuracy := devAccuracy,
          checkpoints := w.checkpoints ++ [checkpointName e],
          log := w.log ++ [mkLogLine ty e devAccuracy],
          prog := s.prog }

/-- `NNTools.train` with fallible batches: the epoch loop propagates the
first failure and skips all remaining epochs. -/
def trainRunE {Model Img Err : Type} (fwd : Model → Img → ℚ)
    (stepE : Model → Batch Img → Except Err Model) (ty : SigType) (bs : Nat)
    (devset : List (Ex Img)) (E : Nat) (ebs : Nat → List (Batch Img))
    (w0 : TrainWorld Model) :
    Except (Err × TrainWorld Model) (TrainWorld Model) :=
  (List.range' 1 E).foldl
    (fun r e => r.bind fun w => trainEpochE fwd stepE ty bs devset e w (ebs e))
    (Except.ok w0)

/-- `SEED = 717` (line 39). -/
def SEED : Nat := 717

/-- `torch.manual_seed(seed)` (line 77): overwrites the ambient global RNG
state with a state determined by `seed` alone. -/
def torchManualSeed (seed : Nat) (_g : Nat) : Nat := seed

/-- The external net constructors `ServoNet(shape)` / `MotorNet(shape)`
(line 79 / 81): deterministic functions of the input shape and of the
global RNG state under which they are called. -/
structure InitCtx (Model Shape : Type) where
  servoNet : Shape → Nat → Model
  motorNet : Shape → Nat → Model

/-- Lines 76-81 of the constructor: seed the RNG with the constant `SEED`,
then build the net for the configured signal under the resulting RNG
state. -/
def buildModel {Model Shape : Type} (I : InitCtx Model Shape) (ty : SigType)
    (shape : Shape) (g : Nat) : Model :=
  let g1 := torchManualSeed SEED g
  match ty with
  | .servo => I.servoNet shape g1
  | .motor => I.motorNet shape g1

/-- The `"train"`-mode settings block read by the constructor
(lines 63-74): `content["shape"]`, `content["batch"]`, `content["cuda"]`,
`content["epoch"]`. -/
structure TrainSettings (Shape : Type) where
  shape : Shape
  batch : Nat
  cuda : Bool
  epoch : Nat

/-- The fields of an `NNTools` instance after `__init__` in training mode. -/
structure NNToolsT (Model Shape : Type) where
  ty : SigType
  shape : Shape
  batch_size : Nat
  cuda : Bool
  epochs : Nat
  model : Model
  log : List LogLine

/-- `NNTools.__init__` (lines 51-92) for `types = [ty, "train"]`, given the
decoded settings block, the pre-existing log file contents and the ambient
global RNG state `g`. -/
def mkNNToolsTrain {Model Shape : Type} (I : InitCtx Model Shape)
    (s : TrainSettings Shape) (ty : SigType) (oldLog : List LogLine)
    (g : Nat) : NNToolsT Model Shape :=
  { ty := ty, shape := s.shape, batch_size := s.batch, cuda := s.cuda,
    epochs := s.epoch, model := buildModel I ty s.shape g,
    log := set_output oldLog }

theorem chunksFlattenAux {α : Type} (bs : Nat) :
    ∀ (n : Nat) (l : List α), l.length ≤ n → (chunks bs l).flatten = l := by
  intro n
  induction n with
  | zero =>
    intro l h
    have hl : l = [] := List.length_eq_zero.mp (Nat.le_zero.mp h)
    subst hl
    simp [chunks]
  | succ n ih =>
    intro l h
    cases l with
    | nil => simp [chunks]
    | cons a l =>
      rw [chunks]
      simp only [List.flatten_cons]
      rw [ih (List.drop (bs - 1) l) (by simp at h ⊢; omega)]
      simp [List.take_append_drop]

/-- The `DataLoader` chunks of a manifest, concatenated, restore the
manifest: every example appears in exactly one batch. -/
theorem chunks_flatten {α : Type} (bs : Nat) (l : List α) :
    (chunks bs l).flatten = l :=
  chunksFlattenAux bs l.length l le_rfl

theorem testLoop_eq {Model Img : Type} (fwd : Model → Img → ℚ) (ty : SigType)
    (m : Model) (t : ℚ) (L : List (Batch Img)) :
    testLoop fwd ty (t, m) L
      = (t + ((L.map fun b => (batchCorrect fwd ty m b : ℚ)).sum), m) := by
  induction L generalizing t with
  | nil => simp [testLoop]
  | cons b bl ih => simp [testLoop, ih]; ring

/-- The batched accumulation of `test` counts exactly the examples of the
manifest that pass the tolerance band, whatever the batch size. -/
theorem testTotal_eq {Model Img : Type} (fwd : Model → Img → ℚ)
    (ty : SigType) (m : Model) (bs : Nat) (ts : List (Ex Img)) :
    (testLoop fwd ty (0, m) (chunks bs ts)).1
      = (ts.countP (isCorrect fwd ty m) : ℚ) := by
  rw [testLoop_eq]
  have h1 : ((chunks bs ts).map fun b => (batchCorrect fwd ty m b : ℚ)).sum
      = ((((chunks bs ts).map fun b => batchCorrect fwd ty m b).sum : ℕ) : ℚ) := by
    rw [Nat.cast_list_sum, List.map_map]
    rfl
  rw [h1]
  have h2 : ((chunks bs ts).map fun b => batchCorrect fwd ty m b).sum
      = ts.countP (isCorrect fwd ty m) := by
    have := List.countP_flatten (isCorrect fwd ty m) (chunks bs ts)
    rw [chunks_flatten] at this
    rw [this]
    rfl
  rw [h2]
  ring

/-- The C1 scenario: a model whose rounded predictions on examples
`0, …, 4` are `[3, 4, 2, 9, 1]`. -/
def predsC1 : List ℚ := [3, 4, 2, 9, 1]

/-- Forward pass of the C1 scenario model (the weights are trivial). -/
def fwdC1 : Unit → Nat → ℚ := fun _ i => predsC1.getD i 0

/-- The C1 scenario manifest: five examples with labels `[3, 5, 2, 8, 1]`. -/
def exsC1 : List (Ex Nat) :=
  [⟨0, 3, 3⟩, ⟨1, 5, 5⟩, ⟨2, 2, 2⟩, ⟨3, 8, 8⟩, ⟨4, 1, 1⟩]

/-- C1 (amended): on every non-empty manifest, `NNTools.test` counts an
example correct iff the absolute difference between its label and the
rounded prediction is at most 1, and returns
`100 × correctCount / totalExampleCount`, a value in `[0, 100]`, with the
denominator `len(testset)` even when it is not a multiple of the batch
size.  (The claim's concrete scenario is wrong: for batch size 2, labels
`[3,5,2,8,1]` and rounded predictions `[3,4,2,9,1]` every difference is
`≤ 1`, so it returns `100.0`, not `80.0` — see the counterexample.) -/
theorem c1_thm {Model Img : Type} (fwd : Model → Img → ℚ) (ty : SigType)
    (m : Model) (bs : Nat) (ts : List (Ex Img)) (_hbs : 1 ≤ bs)
    (hts : ts ≠ []) :
    testM fwd ty m bs ts
      = some ((ts.countP (isCorrect fwd ty m) : ℚ) * 100 / (ts.length : ℚ), m)
    ∧ 0 ≤ (ts.countP (isCorrect fwd ty m) : ℚ) * 100 / (ts.length : ℚ)
    ∧ (ts.countP (isCorrect fwd ty m) : ℚ) * 100 / (ts.length : ℚ) ≤ 100 := by
  have hlen : ts.length ≠ 0 := fun h => hts (List.length_eq_zero.mp h)
  have hlenQ : (0 : ℚ) < (ts.length : ℚ) := by
    exact_mod_cast Nat.pos_of_ne_zero hlen
  refine ⟨?_, ?_, ?_⟩
  · simp only [testM, hlen, if_false]
    rw [show (testLoop fwd ty (0, m) (chunks bs ts))
        = ((testLoop fwd ty (0, m) (chunks bs ts)).1,
           (testLoop fwd ty (0, m) (chunks bs ts)).2) from rfl]
    rw [testTotal_eq]
    have hm : (testLoop fwd ty (0, m) (chunks bs ts)).2 = m := by
      rw [testLoop_eq]
    rw [hm]
  · positivity
  · rw [div_le_iff₀ hlenQ]
    have hc : (ts.countP (isCorrect fwd ty m) : ℚ) ≤ (ts.length : ℚ) := by
      exact_mod_cast List.countP_le_length (isCorrect fwd ty m)
    nlinarith

/-- C1 counterexample: the claim asserts that with batch size 2, labels
`[3,5,2,8,1]` and rounded predictions `[3,4,2,9,1]` the accuracy is
`80.0`.  In fact every example there satisfies
`|label − roundedPrediction| ≤ 1` (including `|8 − 9| = 1`), so
`NNTools.test` returns `100.0`, and `100 ≠ 80`. -/
theorem c1_cex :
    testM fwdC1 .servo () 2 exsC1 = some (100, ()) ∧ ¬((100 : ℚ) = 80) := by
  constructor
  · norm_num [testM, exsC1, chunks, testLoop, batchCorrect, isCorrect,
      targetOf, fwdC1, predsC1, roundEven, List.countP_cons, List.countP_nil]
  · norm_num

/-- C1 witness: the amended theorem applied to the claim's own scenario
(batch size 2, the five-example manifest). -/
theorem c1_wit :
    testM fwdC1 .servo () 2 exsC1
      = some ((exsC1.countP (isCorrect fwdC1 .servo ()) : ℚ) * 100
          / (exsC1.length : ℚ), ())
    ∧ 0 ≤ (exsC1.countP (isCorrect fwdC1 .servo ()) : ℚ) * 100
          / (exsC1.length : ℚ)
    ∧ (exsC1.countP (isCorrect fwdC1 .servo ()) : ℚ) * 100
          / (exsC1.length : ℚ) ≤ 100 :=
  c1_thm fwdC1 .servo () 2 exsC1 (by norm_num) (by simp [exsC1])

/-- C9: `NNTools.test` divides by `len(testset)` without a guard, so on an
empty manifest it raises `ZeroDivisionError` (modelled as `none`) instead
of returning a value; on every non-empty manifest the division is safe and
a value is returned. -/
theorem c9_thm {Model Img : Type} (fwd : Model → Img → ℚ) (ty : SigType)
    (m : Model) (bs : Nat) :
    testM fwd ty m bs ([] : List (Ex Img)) = none
    ∧ ∀ ts : List (Ex Img), ts ≠ [] → (testM fwd ty m bs ts).isSome = true := by
  constructor
  · simp [testM]
  · intro ts hts
    have hlen : ts.length ≠ 0 := fun h => hts (List.length_eq_zero.mp h)
    simp [testM, hlen]

/-- C9 witness: the empty manifest raises, the five-example manifest of the
C1 scenario returns a value. -/
theorem c9_wit :
    testM fwdC1 .servo () 2 [] = none
    ∧ (testM fwdC1 .servo () 2 exsC1).isSome = true :=
  ⟨(c9_thm fwdC1 .servo () 2).1,
   (c9_thm fwdC1 .servo () 2).2 exsC1 (by simp [exsC1])⟩

/-- C7: `NNTools.test` performs no optimizer step and leaves the model
weights unchanged (the batch loop only reads `self.model`), so running it
twice in succession on the same manifest — the second call starting from
the model state the first call left behind — returns the same accuracy
value both times. -/
theorem c7_thm {Model Img : Type} (fwd : Model → Img → ℚ) (ty : SigType)
    (m : Model) (bs : Nat) (ts : List (Ex Img)) (hts : ts ≠ []) :
    ∃ a, testM fwd ty m bs ts = some (a, m)
      ∧ (testM fwd ty m bs ts).bind (fun p => testM fwd ty p.2 bs ts)
          = some (a, m) := by
  have hlen : ts.length ≠ 0 := fun h => hts (List.length_eq_zero.mp h)
  have hm : testM fwd ty m bs ts
      = some ((testLoop fwd ty (0, m) (chunks bs ts)).1 * 100
          / (ts.length : ℚ), m) := by
    simp only [testM, hlen, if_false]
    rw [show (testLoop fwd ty (0, m) (chunks bs ts))
        = ((testLoop fwd ty (0, m) (chunks bs ts)).1,
           (testLoop fwd ty (0, m) (chunks bs ts)).2) from rfl]
    rw [show (testLoop fwd ty (0, m) (chunks bs ts)).2 = m from by
      rw [testLoop_eq]]
  exact ⟨_, hm, by rw [hm]; simpa using hm⟩

/-- C7 witness: two successive `test` calls on the C1 scenario manifest. -/
theorem c7_wit :
    ∃ a, testM fwdC1 .servo () 2 exsC1 = some (a, ())
      ∧ (testM fwdC1 .servo () 2 exsC1).bind
          (fun p => testM fwdC1 .servo p.2 2 exsC1) = some (a, ()) :=
  c7_thm fwdC1 .servo () 2 exsC1 (by simp [exsC1])

theorem argmaxIdx_lt (l : List ℚ) (h : l ≠ []) : argmaxIdx l < l.length := by
  induction l with
  | nil => exact absurd rfl h
  | cons x xs ih =>
    by_cases hc : ∀ y ∈ xs, y ≤ x
    · simp only [argmaxIdx, List.length_cons]
      rw [if_pos hc]
      omega
    · have hxs : xs ≠ [] := by
        rintro rfl
        exact hc (by simp)
      simp only [argmaxIdx, List.length_cons]
      rw [if_neg hc]
      exact Nat.succ_lt_succ (ih hxs)

theorem argmaxIdx_max (l : List ℚ) (j : Nat) (hj : j < l.length)
    (hlt : argmaxIdx l < l.length) :
    l.get ⟨j, hj⟩ ≤ l.get ⟨argmaxIdx l, hlt⟩ := by
  induction l generalizing j with
  | nil => exact absurd hj (by simp)
  | cons x xs ih =>
    by_cases hc : ∀ y ∈ xs, y ≤ x
    · have h00 : argmaxIdx (x :: xs) = 0 := by
        simp only [argmaxIdx]
        rw [if_pos hc]
      have h0 : (x :: xs).get ⟨argmaxIdx (x :: xs), hlt⟩ = x := by
        rw [show (⟨argmaxIdx (x :: xs), hlt⟩ : Fin (x :: xs).length)
            = ⟨0, Nat.succ_pos xs.length⟩ from Fin.ext h00]
        rfl
      rw [h0]
      cases j with
      | zero => exact le_refl _
      | succ j =>
        exact hc _ (List.get_mem xs j (by simpa using hj))
    · have hxs : xs ≠ [] := by
        rintro rfl
        exact hc (by simp)
      have hk : argmaxIdx xs < xs.length := argmaxIdx_lt xs hxs
      have hidx : argmaxIdx (x :: xs) = argmaxIdx xs + 1 := by
        simp only [argmaxIdx]
        rw [if_neg hc]
      have hmain : (x :: xs).get ⟨argmaxIdx (x :: xs), hlt⟩
          = xs.get ⟨argmaxIdx xs, hk⟩ := by
        have hlt2 : argmaxIdx xs + 1 < (x :: xs).length := by
          rw [← hidx]
          exact hlt
        rw [show (⟨argmaxIdx (x :: xs), hlt⟩ : Fin (x :: xs).length)
            = ⟨argmaxIdx xs + 1, hlt2⟩ from Fin.ext hidx]
        rfl
      rw [hmain]
      cases j with
      | zero =>
        push_neg at hc
        obtain ⟨y, hy, hlty⟩ := hc
        obtain ⟨⟨n, hn⟩, rfl⟩ := List.get_of_mem hy
        exact le_of_lt (lt_of_lt_of_le hlty (ih n hn hk))
      | succ j =>
        exact ih j (by simpa using hj) hk

theorem argmaxIdx_min (l : List ℚ) (j : Nat) (hj : j < l.length)
    (hlt : argmaxIdx l < l.length)
    (hge : l.get ⟨argmaxIdx l, hlt⟩ ≤ l.get ⟨j, hj⟩) : argmaxIdx l ≤ j := by
  induction l generalizing j with
  | nil => exact absurd hj (by simp)
  | cons x xs ih =>
    by_cases hc : ∀ y ∈ xs, y ≤ x
    · have h0 : argmaxIdx (x :: xs) = 0 := by
        simp only [argmaxIdx]
        rw [if_pos hc]
      rw [h0]
      exact Nat.zero_le j
    · have hxs : xs ≠ [] := by
        rintro rfl
        exact hc (by simp)
      have hk : argmaxIdx xs < xs.length := argmaxIdx_lt xs hxs
      have hidx : argmaxIdx (x :: xs) = argmaxIdx xs + 1 := by
        simp only [argmaxIdx]
        rw [if_neg hc]
      have hmain : (x :: xs).get ⟨argmaxIdx (x :: xs), hlt⟩
          = xs.get ⟨argmaxIdx xs, hk⟩ := by
        have hlt2 : argmaxIdx xs + 1 < (x :: xs).length := by
          rw [← hidx]
          exact hlt
        rw [show (⟨argmaxIdx (x :: xs), hlt⟩ : Fin (x :: xs).length)
            = ⟨argmaxIdx xs + 1, hlt2⟩ from Fin.ext hidx]
        rfl
      rw [hmain] at hge
      rw [hidx]
      cases j with
      | zero =>
        exfalso
        push_neg at hc
        obtain ⟨y, hy, hlty⟩ := hc
        obtain ⟨⟨n, hn⟩, rfl⟩ := List.get_of_mem hy
        have h1 : xs.get ⟨n, hn⟩ ≤ xs.get ⟨argmaxIdx xs, hk⟩ :=
          argmaxIdx_max xs n hn hk
        have h2 : (x :: xs).get ⟨0, hj⟩ = x := rfl
        rw [h2] at hge
        exact absurd (lt_of_lt_of_le hlty (le_trans h1 hge)) (lt_irrefl x)
      | succ j =>
        exact Nat.succ_le_succ (ih j (by simpa using hj) hk hge)

/-- C6: for every non-empty ordered sequence of epoch accuracy records, the
best-epoch index `plot_result` writes into the log line is
`np.argmax(dev_accuracy) + 1`: the 1-based index of a record no other
record strictly exceeds, and the smallest such index when the maximum
accuracy occurs more than once. -/
theorem c6_thm (ty : SigType) (epoch : Nat) (devAcc : List ℚ)
    (h : devAcc ≠ []) :
    ∃ hlt : argmaxIdx devAcc < devAcc.length,
      (mkLogLine ty epoch devAcc).best = argmaxIdx devAcc + 1
      ∧ (∀ j (hj : j < devAcc.length),
          devAcc.get ⟨j, hj⟩ ≤ devAcc.get ⟨argmaxIdx devAcc, hlt⟩)
      ∧ (∀ j (hj : j < devAcc.length),
          devAcc.get ⟨argmaxIdx devAcc, hlt⟩ ≤ devAcc.get ⟨j, hj⟩ →
            argmaxIdx devAcc ≤ j) := by
  refine ⟨argmaxIdx_lt devAcc h, rfl, ?_, ?_⟩
  · intro j hj
    exact argmaxIdx_max devAcc j hj (argmaxIdx_lt devAcc h)
  · intro j hj hge
    exact argmaxIdx_min devAcc j hj (argmaxIdx_lt devAcc h) hge

/-- C6 witness: the accuracy history `[60, 90, 75, 90]`, whose maximum
first occurs at 0-based index 1, so the log line records best epoch 2. -/
theorem c6_wit :
    ∃ hlt : argmaxIdx [(60 : ℚ), 90, 75, 90]
        < [(60 : ℚ), 90, 75, 90].length,
      (mkLogLine SigType.servo 4 [(60 : ℚ), 90, 75, 90]).best
          = argmaxIdx [(60 : ℚ), 90, 75, 90] + 1
      ∧ (∀ j (hj : j < [(60 : ℚ), 90, 75, 90].length),
          [(60 : ℚ), 90, 75, 90].get ⟨j, hj⟩
            ≤ [(60 : ℚ), 90, 75, 90].get
                ⟨argmaxIdx [(60 : ℚ), 90, 75, 90], hlt⟩)
      ∧ (∀ j (hj : j < [(60 : ℚ), 90, 75, 90].length),
          [(60 : ℚ), 90, 75, 90].get
              ⟨argmaxIdx [(60 : ℚ), 90, 75, 90], hlt⟩
            ≤ [(60 : ℚ), 90, 75, 90].get ⟨j, hj⟩ →
              argmaxIdx [(60 : ℚ), 90, 75, 90] ≤ j) :=
  c6_thm SigType.servo 4 [(60 : ℚ), 90, 75, 90] (by simp)

/-- C10: the constructor calls `torch.manual_seed(717)` before building the
net, so the initial model parameters of an `NNTools` engine do not depend
on the ambient RNG state: two engines constructed with the same settings
and types (under any two prior RNG states, with any prior log contents)
start from identical initial model parameters, and the seed is the fixed
constant 717. -/
theorem c10_thm {Model Shape : Type} (I : InitCtx Model Shape)
    (s : TrainSettings Shape) (ty : SigType)
    (oldLog1 oldLog2 : List LogLine) (g1 g2 : Nat) :
    (mkNNToolsTrain I s ty oldLog1 g1).model
      = (mkNNToolsTrain I s ty oldLog2 g2).model
    ∧ SEED = 717 := by
  constructor
  · cases ty <;> rfl
  · rfl

theorem trainEpoch_totalLoss {Model Img : Type} (fwd : Model → Img → ℚ)
    (stepUpd : Model → Batch Img → Model) (ty : SigType) (bs : Nat)
    (devset : List (Ex Img)) (e : Nat) (w : TrainWorld Model)
    (bl : List (Batch Img)) :
    (trainEpoch fwd stepUpd ty bs devset e w bl).totalLoss
      = w.totalLoss ++ [(runEpoch fwd stepUpd ty bs e w.accuracy
          ⟨w.model, 0, 0, w.epochLoss, w.prog⟩ bl).epochLoss] := rfl

theorem trainEpoch_devAccuracy {Model Img : Type} (fwd : Model → Img → ℚ)
    (stepUpd : Model → Batch Img → Model) (ty : SigType) (bs : Nat)
    (devset : List (Ex Img)) (e : Nat) (w : TrainWorld Model)
    (bl : List (Batch Img)) :
    (trainEpoch fwd stepUpd ty bs devset e w bl).devAccuracy
      = w.devAccuracy ++ [testAcc fwd ty (runEpoch fwd stepUpd ty bs e
          w.accuracy ⟨w.model, 0, 0, w.epochLoss, w.prog⟩ bl).model bs
          devset] := rfl

theorem trainEpoch_checkpoints {Model Img : Type} (fwd : Model → Img → ℚ)
    (stepUpd : Model → Batch Img → Model) (ty : SigType) (bs : Nat)
    (devset : List (Ex Img)) (e : Nat) (w : TrainWorld Model)
    (bl : List (Batch Img)) :
    (trainEpoch fwd stepUpd ty bs devset e w bl).checkpoints
      = w.checkpoints ++ [checkpointName e] := rfl

theorem trainEpoch_log {Model Img : Type} (fwd : Model → Img → ℚ)
    (stepUpd : Model → Batch Img → Model) (ty : SigType) (bs : Nat)
    (devset : List (Ex Img)) (e : Nat) (w : TrainWorld Model)
    (bl : List (Batch Img)) :
    (trainEpoch fwd stepUpd ty bs devset e w bl).log
      = w.log ++ [mkLogLine ty e ((trainEpoch fwd stepUpd ty bs devset e w
          bl).devAccuracy)] := rfl

/-- Every iteration of the epoch loop appends exactly one loss record, one
accuracy record, one checkpoint file and one log line. -/
theorem trainFold_stats {Model Img : Type} (fwd : Model → Img → ℚ)
    (stepUpd : Model → Batch Img → Model) (ty : SigType) (bs : Nat)
    (devset : List (Ex Img)) (ebs : Nat → List (Batch Img)) :
    ∀ (l : List Nat) (w : TrainWorld Model),
      (l.foldl (fun w e => trainEpoch fwd stepUpd ty bs devset e w (ebs e))
          w).totalLoss.length = w.totalLoss.length + l.length
      ∧ (l.foldl (fun w e => trainEpoch fwd stepUpd ty bs devset e w (ebs e))
          w).devAccuracy.length = w.devAccuracy.length + l.length
      ∧ (l.foldl (fun w e => trainEpoch fwd stepUpd ty bs devset e w (ebs e))
          w).checkpoints = w.checkpoints ++ l.map checkpointName
      ∧ ∃ t, (l.foldl (fun w e => trainEpoch fwd stepUpd ty bs devset e w
          (ebs e)) w).log = w.log ++ t ∧ t.length = l.length := by
  intro l
  induction l with
  | nil =>
    intro w
    refine ⟨by simp, by simp, by simp, [], by simp⟩
  | cons e l ih =>
    intro w
    obtain ⟨h1, h2, h3, t, h4, h5⟩ :=
      ih (trainEpoch fwd stepUpd ty bs devset e w (ebs e))
    refine ⟨?_, ?_, ?_, ?_⟩
    · rw [List.foldl_cons, h1, trainEpoch_totalLoss]
      simp
      omega
    · rw [List.foldl_cons, h2, trainEpoch_devAccuracy]
      simp
      omega
    · rw [List.foldl_cons, h3, trainEpoch_checkpoints]
      simp
    · refine ⟨mkLogLine ty e ((trainEpoch fwd stepUpd ty bs devset e w
        (ebs e)).devAccuracy) :: t, ?_, by simp [h5]⟩
      rw [List.foldl_cons, h4, trainEpoch_log]
      simp

/-- C2: a `train` call over `E ≥ 1` epochs that runs to completion appends
exactly `E` epoch loss records and `E` accuracy records, writes exactly
`E` checkpoint files, and leaves the log file with exactly `E` lines; the
log starts freshly truncated whatever it held before the session
(`oldLog` is arbitrary) and every shorter run's log is a prefix of the
final one (it is only ever appended to). -/
theorem c2_thm {Model Img : Type} (fwd : Model → Img → ℚ)
    (stepUpd : Model → Batch Img → Model) (ty : SigType) (bs : Nat)
    (devset : List (Ex Img)) (m : Model) (oldLog : List LogLine) (E : Nat)
    (ebs : Nat → List (Batch Img)) (_hdev : devset ≠ []) (_hE : 1 ≤ E) :
    (trainRun fwd stepUpd ty bs devset E ebs
      (initWorld m oldLog)).totalLoss.length = E
    ∧ (trainRun fwd stepUpd ty bs devset E ebs
      (initWorld m oldLog)).devAccuracy.length = E
    ∧ (trainRun fwd stepUpd ty bs devset E ebs
      (initWorld m oldLog)).checkpoints.length = E
    ∧ (trainRun fwd stepUpd ty bs devset E ebs
      (initWorld m oldLog)).log.length = E
    ∧ ∀ k, k ≤ E → ∃ t,
        (trainRun fwd stepUpd ty bs devset E ebs (initWorld m oldLog)).log
          = (trainRun fwd stepUpd ty bs devset k ebs
              (initWorld m oldLog)).log ++ t := by
  obtain ⟨h1, h2, h3, t, h4, h5⟩ := trainFold_stats fwd stepUpd ty bs devset
    ebs (List.range' 1 E) (initWorld m oldLog)
  refine ⟨?_, ?_, ?_, ?_, ?_⟩
  · rw [show trainRun fwd stepUpd ty bs devset E ebs (initWorld m oldLog)
        = (List.range' 1 E).foldl (fun w e => trainEpoch fwd stepUpd ty bs
            devset e w (ebs e)) (initWorld m oldLog) from rfl, h1]
    simp [initWorld]
  · rw [show trainRun fwd stepUpd ty bs devset E ebs (initWorld m oldLog)
        = (List.range' 1 E).foldl (fun w e => trainEpoch fwd stepUpd ty bs
            devset e w (ebs e)) (initWorld m oldLog) from rfl, h2]
    simp [initWorld]
  · rw [show trainRun fwd stepUpd ty bs devset E ebs (initWorld m oldLog)
        = (List.range' 1 E).foldl (fun w e => trainEpoch fwd stepUpd ty bs
            devset e w (ebs e)) (initWorld m oldLog) from rfl, h3]
    simp [initWorld, set_output]
  · rw [show trainRun fwd stepUpd ty bs devset E ebs (initWorld m oldLog)
        = (List.range' 1 E).foldl (fun w e => trainEpoch fwd stepUpd ty bs
            devset e w (ebs e)) (initWorld m oldLog) from rfl, h4]
    simp [initWorld, set_output, h5]
  · intro k hk
    have hsplit : List.range' 1 k ++ List.range' (1 + k) (E - k)
        = List.range' 1 E := by
      have hr := List.range'_append 1 k (E - k) 1
      simp only [Nat.one_mul] at hr
      rw [Nat.sub_add_cancel hk] at hr
      exact hr
    obtain ⟨t2, h6, _⟩ := (trainFold_stats fwd stepUpd ty bs devset ebs
      (List.range' (1 + k) (E - k))
      (trainRun fwd stepUpd ty bs devset k ebs (initWorld m oldLog))).2.2.2
    refine ⟨t2, ?_⟩
    rw [show trainRun fwd stepUpd ty bs devset E ebs (initWorld m oldLog)
        = (List.range' 1 E).foldl (fun w e => trainEpoch fwd stepUpd ty bs
            devset e w (ebs e)) (initWorld m oldLog) from rfl]
    rw [← hsplit, List.foldl_append]
    exact h6

/-- The trivial one-parameter model of the concrete scenarios: the forward
pass is constantly 0 and the optimizer step is the identity. -/
def fwdU : Unit → Unit → ℚ := fun _ _ => 0

/-- The optimizer-step effect of the trivial scenario model. -/
def stepU : Unit → Batch Unit → Unit := fun _ _ => ()

/-- A scenario example with labels 0 (zero loss, within tolerance). -/
def exU0 : Ex Unit := ⟨(), 0, 0⟩

/-- A scenario example with labels 1 (per-example squared error 1). -/
def exU1 : Ex Unit := ⟨(), 1, 1⟩

/-- A scenario batch of 50 examples with labels 1: its MSE loss under
`fwdU` is 1. -/
def bU50 : Batch Unit := List.replicate 50 exU1

/-- The scenario dev manifest: one example with label 0. -/
def devU : List (Ex Unit) := [exU0]

/-- Scenario epoch batches: 3 batches of 50 in epoch 1, 2 batches of 50 in
every later epoch. -/
def ebsU : Nat → List (Batch Unit) :=
  fun e => if e = 1 then List.replicate 3 bU50 else List.replicate 2 bU50

/-- C2 witness: a completed 2-epoch training run on the trivial scenario
model. -/
theorem c2_wit :
    (trainRun fwdU stepU .servo 50 devU 2 ebsU
      (initWorld () [])).totalLoss.length = 2
    ∧ (trainRun fwdU stepU .servo 50 devU 2 ebsU
      (initWorld () [])).devAccuracy.length = 2
    ∧ (trainRun fwdU stepU .servo 50 devU 2 ebsU
      (initWorld () [])).checkpoints.length = 2
    ∧ (trainRun fwdU stepU .servo 50 devU 2 ebsU
      (initWorld () [])).log.length = 2
    ∧ ∀ k, k ≤ 2 → ∃ t,
        (trainRun fwdU stepU .servo 50 devU 2 ebsU (initWorld () [])).log
          = (trainRun fwdU stepU .servo 50 devU k ebsU
              (initWorld () [])).log ++ t :=
  c2_thm fwdU stepU .servo 50 devU () [] 2 ebsU (by simp [devU])
    (by norm_num)

/-- C5 (code behaviour at the failing input): the checkpoint path written
at epoch `e` is `output/models/servo_model_epoch_<e>.pth` for EVERY
configured signal — `train` hardcodes the `servo` name at line 204 — even
though `save_model` itself prints `Saving motor Model ` for a motor
session.  The claimed `<signal>_model_epoch_<N>` naming therefore fails
for motor sessions. -/
theorem c5_thm {Model Img : Type} (fwd : Model → Img → ℚ)
    (stepUpd : Model → Batch Img → Model) (ty : SigType) (bs : Nat)
    (devset : List (Ex Img)) (m : Model) (oldLog : List LogLine) (E : Nat)
    (ebs : Nat → List (Batch Img)) (_hdev : devset ≠ []) :
    (trainRun fwd stepUpd ty bs devset E ebs
      (initWorld m oldLog)).checkpoints = (List.range' 1 E).map checkpointName
    ∧ checkpointName 1 = "output/models/servo_model_epoch_1.pth"
    ∧ saveModelMsg SigType.motor = "Saving motor Model " := by
  obtain ⟨-, -, h3, -⟩ := trainFold_stats fwd stepUpd ty bs devset ebs
    (List.range' 1 E) (initWorld m oldLog)
  refine ⟨?_, rfl, rfl⟩
  rw [show trainRun fwd stepUpd ty bs devset E ebs (initWorld m oldLog)
      = (List.range' 1 E).foldl (fun w e => trainEpoch fwd stepUpd ty bs
          devset e w (ebs e)) (initWorld m oldLog) from rfl, h3]
  simp [initWorld]

/-- C5 witness: a one-epoch MOTOR training session still writes its
checkpoint under the servo name. -/
theorem c5_wit :
    (trainRun fwdU stepU .motor 50 devU 1 ebsU
      (initWorld () [])).checkpoints = (List.range' 1 1).map checkpointName
    ∧ checkpointName 1 = "output/models/servo_model_epoch_1.pth"
    ∧ saveModelMsg SigType.motor = "Saving motor Model " :=
  c5_thm fwdU stepU .motor 50 devU () [] 1 ebsU (by simp [devU])

theorem lossSeq_append {Model Img : Type} (fwd : Model → Img → ℚ)
    (stepUpd : Model → Batch Img → Model) (ty : SigType) :
    ∀ (a b : List (Batch Img)) (m : Model),
      lossSeq fwd stepUpd ty m (a ++ b)
        = lossSeq fwd stepUpd ty m a
            ++ lossSeq fwd stepUpd ty (stepModel stepUpd m a) b := by
  intro a
  induction a with
  | nil => intro b m; simp [lossSeq, stepModel]
  | cons x a ih =>
    intro b m
    rw [List.cons_append]
    rw [show lossSeq fwd stepUpd ty m (x :: (a ++ b))
        = mseLoss fwd ty m x :: lossSeq fwd stepUpd ty (stepUpd m x) (a ++ b)
      from rfl]
    rw [ih]
    rw [show lossSeq fwd stepUpd ty m (x :: a)
        = mseLoss fwd ty m x :: lossSeq fwd stepUpd ty (stepUpd m x) a
      from rfl]
    rw [show stepModel stepUpd m (x :: a)
        = stepModel stepUpd (stepUpd m x) a from rfl]
    simp

theorem stepModel_append {Model Img : Type}
    (stepUpd : Model → Batch Img → Model) (a b : List (Batch Img))
    (m : Model) :
    stepModel stepUpd m (a ++ b) = stepModel stepUpd (stepModel stepUpd m a) b :=
  List.foldl_append stepUpd m a b

/-- A run of batches none of which lands the counter on a multiple of 100
prints nothing: it only advances the counter, the weights and the running
loss. -/
theorem noReportRun {Model Img : Type} (fwd : Model → Img → ℚ)
    (stepUpd : Model → Batch Img → Model) (ty : SigType) (bs epoch : Nat)
    (acc : ℚ) :
    ∀ (w : List (Batch Img)) (s : BState Model),
      (∀ j, 1 ≤ j → j ≤ w.length → (s.batch + j * bs) % 100 ≠ 0) →
      w.foldl (batchStep fwd stepUpd ty bs epoch acc) s
        = ⟨stepModel stepUpd s.model w, s.batch + w.length * bs,
           s.running + (lossSeq fwd stepUpd ty s.model w).sum, s.epochLoss,
           s.prog⟩ := by
  intro w
  induction w with
  | nil =>
    intro s _
    cases s
    simp [stepModel, lossSeq]
  | cons b w ih =>
    intro s h
    have hnb : (s.batch + bs) % 100 ≠ 0 := by
      have := h 1 le_rfl (by simp)
      simpa using this
    have hstep : batchStep fwd stepUpd ty bs epoch acc s b
        = ⟨stepUpd s.model b, s.batch + bs,
           s.running + mseLoss fwd ty s.model b, s.epochLoss, s.prog⟩ := by
      simp [batchStep, hnb]
    rw [List.foldl_cons, hstep, ih
      ⟨stepUpd s.model b, s.batch + bs,
       s.running + mseLoss fwd ty s.model b, s.epochLoss, s.prog⟩
      (by
        intro j hj1 hj2
        have hh := h (j + 1) (by omega) (by simp at hj2 ⊢; omega)
        have harith : s.batch + (j + 1) * bs = s.batch + bs + j * bs := by
          ring
        rw [harith] at hh
        exact hh)]
    dsimp only
    have hb2 : s.batch + bs + w.length * bs = s.batch + (b :: w).length * bs := by
      simp only [List.length_cons]
      ring
    have hr2 : s.running + mseLoss fwd ty s.model b
        + (lossSeq fwd stepUpd ty (stepUpd s.model b) w).sum
        = s.running + (lossSeq fwd stepUpd ty s.model (b :: w)).sum := by
      rw [show lossSeq fwd stepUpd ty s.model (b :: w)
          = mseLoss fwd ty s.model b
              :: lossSeq fwd stepUpd ty (stepUpd s.model b) w from rfl]
      rw [List.sum_cons]
      ring
    rw [hb2, hr2]
    rfl

/-- A batch that lands the counter exactly on a multiple of 100 prints the
progress line and resets the running loss (the `if batch % 100 == 0` branch
of lines 188-196). -/
theorem reportStep {Model Img : Type} (fwd : Model → Img → ℚ)
    (stepUpd : Model → Batch Img → Model) (ty : SigType) (bs epoch : Nat)
    (acc : ℚ) (s : BState Model) (b : Batch Img)
    (hmod : (s.batch + bs) % 100 = 0) :
    batchStep fwd stepUpd ty bs epoch acc s b
      = ⟨stepUpd s.model b, s.batch + bs, 0,
         (s.running + mseLoss fwd ty s.model b) / 100,
         s.prog ++ [⟨epoch, s.batch + bs,
           (s.running + mseLoss fwd ty s.model b) / 100, acc⟩]⟩ := by
  simp [batchStep, hmod]

/-- Processing one full window of `100 / bs` batches from a fresh interval
(counter on a multiple of 100, running loss zero) prints exactly one
progress line, at counter `+100`, showing the window's accumulated loss
divided by 100, and resets the running loss again. -/
theorem windowRun {Model Img : Type} (fwd : Model → Img → ℚ)
    (stepUpd : Model → Batch Img → Model) (ty : SigType) (bs epoch : Nat)
    (acc : ℚ) (hbs : 1 ≤ bs) (hdvd : bs ∣ 100) (s : BState Model)
    (hb : s.batch % 100 = 0) (hr : s.running = 0)
    (w : List (Batch Img)) (hw : w.length = 100 / bs) :
    w.foldl (batchStep fwd stepUpd ty bs epoch acc) s
      = ⟨stepModel stepUpd s.model w, s.batch + 100, 0,
         (lossSeq fwd stepUpd ty s.model w).sum / 100,
         s.prog ++ [⟨epoch, s.batch + 100,
           (lossSeq fwd stepUpd ty s.model w).sum / 100, acc⟩]⟩ := by
  have hbs0 : 0 < bs := hbs
  have hbsle : bs ≤ 100 := Nat.le_of_dvd (by norm_num) hdvd
  have hcbs : (100 / bs) * bs = 100 := Nat.div_mul_cancel hdvd
  have hc1 : 1 ≤ 100 / bs := (Nat.le_div_iff_mul_le hbs0).mpr (by omega)
  have hwne : w ≠ [] := by
    intro hnil
    rw [hnil] at hw
    simp at hw
    omega
  have hsplit : w.dropLast ++ [w.getLast hwne] = w :=
    List.dropLast_append_getLast hwne
  have hlen : w.dropLast.length = 100 / bs - 1 := by
    rw [List.length_dropLast, hw]
  rw [← hsplit, List.foldl_append,
    noReportRun fwd stepUpd ty bs epoch acc w.dropLast s (by
      intro j hj1 hj2
      rw [hlen] at hj2
      have hjc : j < 100 / bs := by omega
      have hjbs : j * bs < 100 := by
        calc j * bs < (100 / bs) * bs := by
              exact Nat.mul_lt_mul_of_lt_of_le hjc le_rfl hbs0
        _ = 100 := hcbs
      have hjpos : 0 < j * bs := Nat.mul_pos (by omega) hbs0
      rw [Nat.add_mod, hb]
      simp
      omega)]
  have hcnt : s.batch + w.dropLast.length * bs + bs = s.batch + 100 := by
    rw [hlen]
    have h1 : (100 / bs - 1) * bs + bs = 100 := by
      calc (100 / bs - 1) * bs + bs = (100 / bs - 1 + 1) * bs := by ring
      _ = (100 / bs) * bs := by rw [Nat.sub_add_cancel hc1]
      _ = 100 := hcbs
    omega
  rw [List.foldl_cons, List.foldl_nil]
  rw [reportStep fwd stepUpd ty bs epoch acc _ _ (by
    dsimp only
    rw [hcnt, Nat.add_mod, hb])]
  dsimp only
  have hsum : s.running + (lossSeq fwd stepUpd ty s.model w.dropLast).sum
      + mseLoss fwd ty (stepModel stepUpd s.model w.dropLast)
          (w.getLast hwne)
      = (lossSeq fwd stepUpd ty s.model w).sum := by
    conv_rhs => rw [← hsplit]
    rw [lossSeq_append]
    rw [show lossSeq fwd stepUpd ty
        (stepModel stepUpd s.model w.dropLast) [w.getLast hwne]
        = [mseLoss fwd ty (stepModel stepUpd s.model w.dropLast)
            (w.getLast hwne)] from rfl]
    rw [hr]
    simp
  rw [hcnt, hsum]
  have hmodel : stepUpd (stepModel stepUpd s.model w.dropLast)
      (w.getLast hwne) = stepModel stepUpd s.model w := by
    conv_rhs => rw [← hsplit]
    rw [stepModel_append]
    rfl
  rw [hmodel, hsplit]

/-- Folding the batch loop over a sequence of full 100-example windows,
starting from a fresh interval, prints exactly the window report lines. -/
theorem windowsRun {Model Img : Type} (fwd : Model → Img → ℚ)
    (stepUpd : Model → Batch Img → Model) (ty : SigType) (bs epoch : Nat)
    (acc : ℚ) (hbs : 1 ≤ bs) (hdvd : bs ∣ 100) :
    ∀ (J : List (List (Batch Img))) (s : BState Model),
      (∀ w ∈ J, w.length = 100 / bs) → s.batch % 100 = 0 → s.running = 0 →
      (J.flatten.foldl (batchStep fwd stepUpd ty bs epoch acc) s).prog
          = s.prog ++ windowLines fwd stepUpd ty epoch acc s.model s.batch J
      ∧ (J.flatten.foldl (batchStep fwd stepUpd ty bs epoch acc) s).running
          = 0
      ∧ (J.flatten.foldl (batchStep fwd stepUpd ty bs epoch acc) s).batch
          = s.batch + 100 * J.length
      ∧ (J.flatten.foldl (batchStep fwd stepUpd ty bs epoch acc) s).model
          = stepModel stepUpd s.model J.flatten := by
  intro J
  induction J with
  | nil =>
    intro s _ _ hr
    refine ⟨by simp [windowLines], by simpa using hr, by simp, ?_⟩
    simp [stepModel]
  | cons w J ih =>
    intro s hJ hb hr
    have hw : w.length = 100 / bs := hJ w (by simp)
    have hfold : (w :: J).flatten.foldl
        (batchStep fwd stepUpd ty bs epoch acc) s
        = J.flatten.foldl (batchStep fwd stepUpd ty bs epoch acc)
            (w.foldl (batchStep fwd stepUpd ty bs epoch acc) s) := by
      rw [List.flatten_cons, List.foldl_append]
    have hwr := windowRun fwd stepUpd ty bs epoch acc hbs hdvd s hb hr w hw
    obtain ⟨p1, p2, p3, p4⟩ := ih
      (w.foldl (batchStep fwd stepUpd ty bs epoch acc) s)
      (fun x hx => hJ x (by simp [hx]))
      (by rw [hwr]; simpa using hb)
      (by rw [hwr])
    rw [hwr] at p1 p2 p3 p4
    dsimp only at p1 p2 p3 p4
    refine ⟨?_, ?_, ?_, ?_⟩
    · rw [hfold, hwr] at *
      rw [p1]
      rw [show windowLines fwd stepUpd ty epoch acc s.model s.batch (w :: J)
          = ⟨epoch, s.batch + 100,
              (lossSeq fwd stepUpd ty s.model w).sum / 100, acc⟩
            :: windowLines fwd stepUpd ty epoch acc
                (stepModel stepUpd s.model w) (s.batch + 100) J from rfl]
      simp
    · rw [hfold, hwr]
      exact p2
    · rw [hfold, hwr, p3, List.length_cons]
      ring
    · rw [hfold, hwr, p4, List.flatten_cons, stepModel_append]

/-- The batch loop only ever appends progress lines, whatever the batches
are. -/
theorem progExtend {Model Img : Type} (fwd : Model → Img → ℚ)
    (stepUpd : Model → Batch Img → Model) (ty : SigType) (bs epoch : Nat)
    (acc : ℚ) :
    ∀ (bl : List (Batch Img)) (s : BState Model),
      ∃ t, (bl.foldl (batchStep fwd stepUpd ty bs epoch acc) s).prog
        = s.prog ++ t := by
  intro bl
  induction bl with
  | nil =>
    intro s
    exact ⟨[], by simp⟩
  | cons b bl ih =>
    intro s
    obtain ⟨t, ht⟩ := ih (batchStep fwd stepUpd ty bs epoch acc s b)
    by_cases hc : (s.batch + bs) % 100 = 0
    · refine ⟨⟨epoch, s.batch + bs,
        (s.running + mseLoss fwd ty s.model b) / 100, acc⟩ :: t, ?_⟩
      rw [List.foldl_cons, ht,
        reportStep fwd stepUpd ty bs epoch acc s b hc]
      simp
    · have hpr : (batchStep fwd stepUpd ty bs epoch acc s b).prog
          = s.prog := by
        simp [batchStep, hc]
      rw [List.foldl_cons, ht, hpr]
      exact ⟨t, rfl⟩

/-- C3 (amended): a progress line is emitted exactly when the per-epoch
counter — advanced by `batch += batch_size` for every batch — lands on an
exact multiple of 100: the step prints (showing the accumulated running
loss divided by 100, then resetting the accumulator) iff
`batch % 100 == 0`, for every batch size (last two conjuncts).  For a
batch size `bs ≥ 1` that divides 100 the counter lands on every multiple
of 100, so an epoch made of full 100-example windows emits exactly one
line per window — at cumulative counts 100, 200, … — each showing that
window's accumulated loss divided by 100, with the accumulator reset
after each report (first two conjuncts).  For batch sizes not dividing
100 the counter can skip a multiple of 100, and then no line appears at
that 100-example boundary — see the counterexample, where the boundary at
100 examples is crossed without a report. -/
theorem c3_thm {Model Img : Type} (fwd : Model → Img → ℚ)
    (stepUpd : Model → Batch Img → Model) (ty : SigType) (bs : Nat)
    (hbs : 1 ≤ bs) (hdvd : bs ∣ 100) (epoch : Nat) (acc : ℚ)
    (s0 : BState Model) (J : List (List (Batch Img)))
    (hJ : ∀ w ∈ J, w.length = 100 / bs) :
    (runEpoch fwd stepUpd ty bs epoch acc s0 J.flatten).prog
        = s0.prog ++ windowLines fwd stepUpd ty epoch acc s0.model 0 J
    ∧ (runEpoch fwd stepUpd ty bs epoch acc s0 J.flatten).running = 0
    ∧ (∀ (bs' : Nat) (s : BState Model) (b : Batch Img),
        (s.batch + bs') % 100 = 0 →
          (batchStep fwd stepUpd ty bs' epoch acc s b).prog
            = s.prog ++ [⟨epoch, s.batch + bs',
                (s.running + mseLoss fwd ty s.model b) / 100, acc⟩])
    ∧ (∀ (bs' : Nat) (s : BState Model) (b : Batch Img),
        (s.batch + bs') % 100 ≠ 0 →
          (batchStep fwd stepUpd ty bs' epoch acc s b).prog = s.prog) := by
  obtain ⟨p1, p2, -, -⟩ := windowsRun fwd stepUpd ty bs epoch acc hbs hdvd J
    { s0 with batch := 0, running := 0 } hJ (by simp) (by simp)
  refine ⟨p1, p2, ?_, ?_⟩
  · intro bs' s b hmod
    rw [reportStep fwd stepUpd ty bs' epoch acc s b hmod]
  · intro bs' s b hmod
    simp [batchStep, hmod]

/-- A scenario batch of 40 examples with labels 1. -/
def bU40 : Batch Unit := List.replicate 40 exU1

/-- C3 counterexample: with batch size 40 (which does not divide 100), an
epoch of 3 batches processes 120 examples — crossing the 100-example
boundary — yet prints NO progress line, because the counter visits
40, 80, 120, skipping the multiple 100 (a longer epoch would print its
first line only when the counter lands on a multiple of 100, at 200).
The claim, which asserts a line exactly at every 100 cumulative examples
for every batch size ≥ 1, is false. -/
theorem c3_cex :
    (runEpoch fwdU stepU .servo 40 1 0 ⟨(), 0, 0, 0, []⟩
        [bU40, bU40, bU40]).prog = []
    ∧ 100 ≤ 3 * 40 := by
  constructor
  · norm_num [runEpoch, batchStep]
  · norm_num

/-- C3 witness: batch size 50 (dividing 100), one full window of two
batches. -/
theorem c3_wit :
    (runEpoch fwdU stepU .servo 50 1 0 ⟨(), 0, 0, 0, []⟩
        [[bU50, bU50]].flatten).prog
      = (⟨(), 0, 0, 0, []⟩ : BState Unit).prog
        ++ windowLines fwdU stepU .servo 1 0
            (⟨(), 0, 0, 0, []⟩ : BState Unit).model 0 [[bU50, bU50]]
    ∧ (runEpoch fwdU stepU .servo 50 1 0 ⟨(), 0, 0, 0, []⟩
        [[bU50, bU50]].flatten).running = 0
    ∧ (∀ (bs' : Nat) (s : BState Unit) (b : Batch Unit),
        (s.batch + bs') % 100 = 0 →
          (batchStep fwdU stepU .servo bs' 1 0 s b).prog
            = s.prog ++ [⟨1, s.batch + bs',
                (s.running + mseLoss fwdU .servo s.model b) / 100, 0⟩])
    ∧ (∀ (bs' : Nat) (s : BState Unit) (b : Batch Unit),
        (s.batch + bs') % 100 ≠ 0 →
          (batchStep fwdU stepU .servo bs' 1 0 s b).prog = s.prog) :=
  c3_thm fwdU stepU .servo 50 (by norm_num) (by norm_num) 1 0
    ⟨(), 0, 0, 0, []⟩ [[bU50, bU50]]
    (by
      intro w hw
      simp only [List.mem_singleton] at hw
      subst hw
      rfl)


/-- C4 (amended): when the final reporting interval of an epoch does not
reach the 100-example boundary, its partially accumulated loss is indeed
never reported mid-epoch — but it is NOT carried over: it survives only in
the epoch-local `running_loss`, which is reset to zero at the start of the
next epoch (line 166), so the first reporting interval of the next epoch
accumulates only that epoch's own losses.  Formally: after `J` full
windows and a partial tail `p`, the epoch printed exactly the `J` window
lines and left `running_loss` equal to the partial tail's accumulated
loss; the next epoch's first report (after its first full window `w`)
shows exactly that window's loss sum divided by 100, with no contribution
from `p`. -/
theorem c4_thm {Model Img : Type} (fwd : Model → Img → ℚ)
    (stepUpd : Model → Batch Img → Model) (ty : SigType) (bs : Nat)
    (hbs : 1 ≤ bs) (hdvd : bs ∣ 100) (epoch : Nat) (acc acc2 : ℚ)
    (s0 : BState Model) (J : List (List (Batch Img)))
    (hJ : ∀ x ∈ J, x.length = 100 / bs) (p : List (Batch Img))
    (hp : p.length * bs < 100) (w rest : List (Batch Img))
    (hw : w.length = 100 / bs) :
    (runEpoch fwd stepUpd ty bs epoch acc s0 (J.flatten ++ p)).prog
        = s0.prog ++ windowLines fwd stepUpd ty epoch acc s0.model 0 J
    ∧ (runEpoch fwd stepUpd ty bs epoch acc s0 (J.flatten ++ p)).running
        = (lossSeq fwd stepUpd ty
            (stepModel stepUpd s0.model J.flatten) p).sum
    ∧ ∃ t, (runEpoch fwd stepUpd ty bs (epoch + 1) acc2
          (runEpoch fwd stepUpd ty bs epoch acc s0 (J.flatten ++ p))
          (w ++ rest)).prog
        = s0.prog ++ windowLines fwd stepUpd ty epoch acc s0.model 0 J
          ++ ⟨epoch + 1, 100,
              (lossSeq fwd stepUpd ty
                (runEpoch fwd stepUpd ty bs epoch acc s0
                  (J.flatten ++ p)).model w).sum / 100, acc2⟩ :: t := by
  obtain ⟨p1, p2, p3, p4⟩ := windowsRun fwd stepUpd ty bs epoch acc hbs hdvd
    J { s0 with batch := 0, running := 0 } hJ (by simp) (by simp)
  dsimp only at p1 p2 p3 p4
  have hfold : runEpoch fwd stepUpd ty bs epoch acc s0 (J.flatten ++ p)
      = p.foldl (batchStep fwd stepUpd ty bs epoch acc)
          (J.flatten.foldl (batchStep fwd stepUpd ty bs epoch acc)
            { s0 with batch := 0, running := 0 }) := by
    rw [show runEpoch fwd stepUpd ty bs epoch acc s0 (J.flatten ++ p)
        = (J.flatten ++ p).foldl (batchStep fwd stepUpd ty bs epoch acc)
            { s0 with batch := 0, running := 0 } from rfl,
      List.foldl_append]
  have hnr := noReportRun fwd stepUpd ty bs epoch acc p
    (J.flatten.foldl (batchStep fwd stepUpd ty bs epoch acc)
      { s0 with batch := 0, running := 0 })
    (by
      intro j hj1 hj2
      rw [p3]
      have hjbs : j * bs < 100 := by
        have := Nat.mul_le_mul_right bs hj2
        omega
      rw [show (0 : Nat) + 100 * J.length + j * bs
          = j * bs + 100 * J.length from by ring]
      rw [Nat.add_mul_mod_self_left]
      have hjpos : 0 < j * bs := Nat.mul_pos (by omega) (by omega)
      omega)
  have hX1 : (runEpoch fwd stepUpd ty bs epoch acc s0
      (J.flatten ++ p)).prog
      = s0.prog ++ windowLines fwd stepUpd ty epoch acc s0.model 0 J := by
    rw [hfold, hnr]
    exact p1
  have hX2 : (runEpoch fwd stepUpd ty bs epoch acc s0
      (J.flatten ++ p)).running
      = (lossSeq fwd stepUpd ty
          (stepModel stepUpd s0.model J.flatten) p).sum := by
    rw [hfold, hnr]
    dsimp only
    rw [p2, p4]
    ring
  refine ⟨hX1, hX2, ?_⟩
  have hreset : runEpoch fwd stepUpd ty bs (epoch + 1) acc2
      (runEpoch fwd stepUpd ty bs epoch acc s0 (J.flatten ++ p))
      (w ++ rest)
      = rest.foldl (batchStep fwd stepUpd ty bs (epoch + 1) acc2)
          (w.foldl (batchStep fwd stepUpd ty bs (epoch + 1) acc2)
            { runEpoch fwd stepUpd ty bs epoch acc s0 (J.flatten ++ p) with
              batch := 0, running := 0 }) := by
    rw [show runEpoch fwd stepUpd ty bs (epoch + 1) acc2
        (runEpoch fwd stepUpd ty bs epoch acc s0 (J.flatten ++ p))
        (w ++ rest)
        = (w ++ rest).foldl (batchStep fwd stepUpd ty bs (epoch + 1) acc2)
            { runEpoch fwd stepUpd ty bs epoch acc s0 (J.flatten ++ p) with
              batch := 0, running := 0 } from rfl,
      List.foldl_append]
  have hwr := windowRun fwd stepUpd ty bs (epoch + 1) acc2 hbs hdvd
    { runEpoch fwd stepUpd ty bs epoch acc s0 (J.flatten ++ p) with
      batch := 0, running := 0 } (by simp) (by simp) w hw
  obtain ⟨t, ht⟩ := progExtend fwd stepUpd ty bs (epoch + 1) acc2 rest
    (w.foldl (batchStep fwd stepUpd ty bs (epoch + 1) acc2)
      { runEpoch fwd stepUpd ty bs epoch acc s0 (J.flatten ++ p) with
        batch := 0, running := 0 })
  refine ⟨t, ?_⟩
  rw [hreset, ht, hwr]
  dsimp only
  rw [hX1]
  simp

/-- C4 counterexample: batch size 50; epoch 1 has 3 batches of per-batch
MSE loss 1 (150 examples), epoch 2 has 2 batches (100 examples).  Epoch 1
reports at 100 examples and ends with an unreported partial interval of
accumulated loss 1 (first conjunct).  Epoch 2's first — and only — report
shows `(1+1)/100 = 1/50`: only its own two batch losses.  Under the claim
(partial loss carried over into the next epoch's first interval) it would
show `(1+1+1)/100 = 3/100 ≠ 1/50`.  The partial loss is discarded, not
carried over. -/
theorem c4_cex :
    (runEpoch fwdU stepU .servo 50 1 0 ⟨(), 0, 0, 0, []⟩
        [bU50, bU50, bU50]).running = 1
    ∧ (runEpoch fwdU stepU .servo 50 2 100
        (runEpoch fwdU stepU .servo 50 1 0 ⟨(), 0, 0, 0, []⟩
          [bU50, bU50, bU50]) [bU50, bU50]).prog
      = [⟨1, 100, 1/50, 0⟩, ⟨2, 100, 1/50, 100⟩]
    ∧ ¬((1 : ℚ)/50 = (1 + (1 + 1))/100) := by
  refine ⟨?_, ?_, by norm_num⟩
  · norm_num [runEpoch, batchStep, mseLoss, bU50, exU1, targetOf, fwdU,
      stepU, List.map_replicate, List.sum_replicate]
  · norm_num [runEpoch, batchStep, mseLoss, bU50, exU1, targetOf, fwdU,
      stepU, List.map_replicate, List.sum_replicate]

/-- C4 witness: the amended theorem at batch size 50, one full window plus
a one-batch partial tail in the first epoch, one full window in the
second. -/
theorem c4_wit :
    (runEpoch fwdU stepU .servo 50 1 0 ⟨(), 0, 0, 0, []⟩
        ([[bU50, bU50]].flatten ++ [bU50])).prog
      = (⟨(), 0, 0, 0, []⟩ : BState Unit).prog
        ++ windowLines fwdU stepU .servo 1 0
            (⟨(), 0, 0, 0, []⟩ : BState Unit).model 0 [[bU50, bU50]]
    ∧ (runEpoch fwdU stepU .servo 50 1 0 ⟨(), 0, 0, 0, []⟩
        ([[bU50, bU50]].flatten ++ [bU50])).running
      = (lossSeq fwdU stepU .servo
          (stepModel stepU (⟨(), 0, 0, 0, []⟩ : BState Unit).model
            [[bU50, bU50]].flatten) [bU50]).sum
    ∧ ∃ t, (runEpoch fwdU stepU .servo 50 (1 + 1) 100
          (runEpoch fwdU stepU .servo 50 1 0 ⟨(), 0, 0, 0, []⟩
            ([[bU50, bU50]].flatten ++ [bU50]))
          ([bU50, bU50] ++ [])).prog
        = (⟨(), 0, 0, 0, []⟩ : BState Unit).prog
          ++ windowLines fwdU stepU .servo 1 0
              (⟨(), 0, 0, 0, []⟩ : BState Unit).model 0 [[bU50, bU50]]
          ++ ⟨1 + 1, 100,
              (lossSeq fwdU stepU .servo
                (runEpoch fwdU stepU .servo 50 1 0 ⟨(), 0, 0, 0, []⟩
                  ([[bU50, bU50]].flatten ++ [bU50])).model
                [bU50, bU50]).sum / 100, 100⟩ :: t :=
  c4_thm fwdU stepU .servo 50 (by norm_num) (by norm_num) 1 0 100
    ⟨(), 0, 0, 0, []⟩ [[bU50, bU50]]
    (by
      intro x hx
      simp only [List.mem_singleton] at hx
      subst hx
      rfl)
    [bU50] (by norm_num) [bU50, bU50] [] rfl

theorem trainFoldE_error {Model Img Err : Type} (fwd : Model → Img → ℚ)
    (stepE : Model → Batch Img → Except Err Model) (ty : SigType) (bs : Nat)
    (devset : List (Ex Img)) (ebs : Nat → List (Batch Img)) :
    ∀ (l : List Nat) (e : Err × TrainWorld Model),
      l.foldl (fun r e' => r.bind fun w =>
          trainEpochE fwd stepE ty bs devset e' w (ebs e'))
        (Except.error e) = Except.error e := by
  intro l
  induction l with
  | nil => intro e; rfl
  | cons x l ih =>
    intro e
    rw [List.foldl_cons]
    rw [show (Except.error e : Except (Err × TrainWorld Model)
          (TrainWorld Model)).bind (fun w =>
            trainEpochE fwd stepE ty bs devset x w (ebs x))
        = Except.error e from rfl]
    exact ih e

/-- C8: if any batch of epoch `k` fails, the entire `train` call aborts:
the weight updates of the batches already completed in that epoch are
retained in memory (the returned world's model is the batch-loop state at
the failure), but the loss/accuracy records, the checkpoint files and the
log lines stay exactly those of the `k - 1` completed epochs — nothing is
persisted for the incomplete epoch, and no later epoch runs. -/
theorem c8_thm {Model Img Err : Type} (fwd : Model → Img → ℚ)
    (stepE : Model → Batch Img → Except Err Model) (ty : SigType) (bs : Nat)
    (devset : List (Ex Img)) (E : Nat) (ebs : Nat → List (Batch Img))
    (w0 : TrainWorld Model) (k : Nat) (hk1 : 1 ≤ k) (hk2 : k ≤ E)
    (w : TrainWorld Model) (err : Err) (s : BState Model)
    (hpre : trainRunE fwd stepE ty bs devset (k - 1) ebs w0 = Except.ok w)
    (hfail : runEpochE fwd stepE ty bs k w.accuracy
        ⟨w.model, 0, 0, w.epochLoss, w.prog⟩ (ebs k)
      = Except.error (err, s)) :
    trainRunE fwd stepE ty bs devset E ebs w0
      = Except.error (err, { w with model := s.model, prog := s.prog }) := by
  have hsplit : List.range' 1 (k - 1) ++ List.range' k (E - k + 1)
      = List.range' 1 E := by
    have hr := List.range'_append 1 (k - 1) (E - k + 1) 1
    simp only [Nat.one_mul] at hr
    rw [show 1 + (k - 1) = k from by omega] at hr
    rw [show E - k + 1 + (k - 1) = E from by omega] at hr
    exact hr
  have hcons : List.range' k (E - k + 1) = k :: List.range' (k + 1) (E - k) :=
    List.range'_succ k (E - k) 1
  rw [show trainRunE fwd stepE ty bs devset E ebs w0
      = (List.range' 1 E).foldl (fun r e => r.bind fun w =>
          trainEpochE fwd stepE ty bs devset e w (ebs e))
        (Except.ok w0) from rfl]
  rw [← hsplit, List.foldl_append]
  rw [show (List.range' 1 (k - 1)).foldl (fun r e => r.bind fun w =>
        trainEpochE fwd stepE ty bs devset e w (ebs e)) (Except.ok w0)
      = trainRunE fwd stepE ty bs devset (k - 1) ebs w0 from rfl, hpre]
  rw [hcons, List.foldl_cons]
  rw [show (Except.ok w : Except (Err × TrainWorld Model)
        (TrainWorld Model)).bind (fun w =>
          trainEpochE fwd stepE ty bs devset k w (ebs k))
      = trainEpochE fwd stepE ty bs devset k w (ebs k) from rfl]
  rw [show trainEpochE fwd stepE ty bs devset k w (ebs k)
      = Except.error (err, { w with model := s.model, prog := s.prog })
    from by
      rw [trainEpochE, hfail]]
  exact trainFoldE_error fwd stepE ty bs devset ebs _ _

/-- A batch update that always raises (any failure inside the batch body:
data loading, forward, backward or optimizer step). -/
def stepF : Unit → Batch Unit → Except Unit Unit := fun _ _ => Except.error ()

/-- C8 witness: a 2-epoch session whose very first batch fails: the call
returns the failure with the initial world's records, checkpoints and log
untouched, and epoch 2 never runs. -/
theorem c8_wit :
    trainRunE fwdU stepF .servo 50 devU 2 ebsU (initWorld () [])
      = Except.error ((), { initWorld () [] with
          model := (⟨(), 0, 0, 0, []⟩ : BState Unit).model,
          prog := (⟨(), 0, 0, 0, []⟩ : BState Unit).prog }) :=
  c8_thm fwdU stepF .servo 50 devU 2 ebsU (initWorld () []) 1
    (by norm_num) (by norm_num) (initWorld () []) () ⟨(), 0, 0, 0, []⟩
    rfl rfl
